import Mathlib

/-!
Shallow embedding of `src/amethyst_animation/src/resources.rs` (the
animation control & sampling core of the amethyst fork), together with
theorems settling the specification claims about `SamplerControlSet`
and the stepping logic.

Modelling choices:
* `std::time::Duration` and `f32` seconds are both modelled as `ℚ`;
  `secs_to_duration` / `duration_to_secs` (from `amethyst_core::timing`,
  not part of the sources) are modelled as the identity on rational
  seconds, per the spec's statement that conversion happens at the
  state boundary.
* `FnvHashMap<T::Channel, SamplerControl<T>>` is modelled as an
  association list `List (χ × SamplerControl α χ)`; the per-channel
  operations iterate over the values exactly like `values_mut()`.
* `Handle<Sampler<...>>` is modelled as a `Nat` identifier and
  `AssetStorage::get` as a function `Nat → Option (Sampler α)`;
  a `None` result is the "asset not yet loaded" case.
* A Rust panic (`.unwrap()` on `None`) is modelled by returning `none`
  from the embedded function, so `SamplerControlSet.step` returns
  `Option (SamplerControlSet α χ)`.
-/

/-- Modelled from the spec: the interpolation method tag of the external
`minterpolate` crate ("How should interpolation be done"); its content is
irrelevant to the control logic, so it is a single-constructor type. -/
inductive InterpolationFunction : Type
  | tag : InterpolationFunction
deriving DecidableEq

/-- `Sampler<T>` from resources.rs: a single keyframe track.
Keyframe times (`input`) are rational seconds, outputs are values of `α`. -/
structure Sampler (α : Type) : Type where
  input : List ℚ
  output : List α
  function : InterpolationFunction
deriving DecidableEq

/-- Modelled from the spec: `amethyst_core::timing::secs_to_duration`
(not part of the sources). Seconds and durations are both rational, so
the conversion is the identity. -/
def secs_to_duration (secs : ℚ) : ℚ := secs

/-- Modelled from the spec: `amethyst_core::timing::duration_to_secs`
(not part of the sources). Seconds and durations are both rational, so
the conversion is the identity. -/
def duration_to_secs (dur : ℚ) : ℚ := dur

/-- `ControlState` from resources.rs: state of an animation or of a
single sampler control. Durations are rational seconds. -/
inductive ControlState : Type
  | Requested : ControlState
  | Running : ℚ → ControlState
  | Paused : ℚ → ControlState
  | Abort : ControlState
  | Done : ControlState
deriving DecidableEq

/-- `ControlState::is_running` from resources.rs. -/
def ControlState.is_running : ControlState → Bool
  | ControlState.Running _ => true
  | _ => false

/-- `ControlState::is_paused` from resources.rs. -/
def ControlState.is_paused : ControlState → Bool
  | ControlState.Paused _ => true
  | _ => false

/-- `EndControl` from resources.rs. -/
inductive EndControl : Type
  | Loop : Option Nat → EndControl
  | Normal : EndControl
deriving DecidableEq

/-- `StepDirection` from resources.rs. -/
inductive StepDirection : Type
  | Forward : StepDirection
  | Backward : StepDirection
deriving DecidableEq

/-- `SamplerControl<T>` from resources.rs: per-channel live state.
`sampler` is the handle (identifier) of the sampler asset; `end_` models
the `end` field (`end` is a Lean keyword). -/
structure SamplerControl (α χ : Type) : Type where
  channel : χ
  sampler : Nat
  state : ControlState
  end_ : EndControl
  after : α
  rate_multiplier : ℚ
deriving DecidableEq

/-- `SamplerControlSet<T>` from resources.rs: map from channel to
sampler control, modelled as an association list. -/
structure SamplerControlSet (α χ : Type) : Type where
  samplers : List (χ × SamplerControl α χ)
deriving DecidableEq

namespace SamplerControlSet

/-- `SamplerControlSet::abort` from resources.rs: every entry whose
state is not `Done` is set to `Abort` (the `filter` on `values_mut`). -/
def abort {α χ : Type} (s : SamplerControlSet α χ) : SamplerControlSet α χ :=
  ⟨s.samplers.map fun p =>
    (p.1, if p.2.state ≠ ControlState.Done
          then { p.2 with state := ControlState.Abort }
          else p.2)⟩

/-- `SamplerControlSet::pause` from resources.rs: `Running(dur)` becomes
`Paused(dur)`, every other state becomes `Paused(Duration::from_secs(0))`. -/
def pause {α χ : Type} (s : SamplerControlSet α χ) : SamplerControlSet α χ :=
  ⟨s.samplers.map fun p =>
    (p.1, { p.2 with state :=
      match p.2.state with
      | ControlState.Running dur => ControlState.Paused dur
      | _ => ControlState.Paused 0 })⟩

/-- `SamplerControlSet::unpause` from resources.rs: `Paused(dur)` becomes
`Running(dur)`, every other state is left as-is. -/
def unpause {α χ : Type} (s : SamplerControlSet α χ) : SamplerControlSet α χ :=
  ⟨s.samplers.map fun p =>
    (p.1, { p.2 with state :=
      match p.2.state with
      | ControlState.Paused dur => ControlState.Running dur
      | st => st })⟩

/-- `SamplerControlSet::set_rate_multiplier` from resources.rs: broadcast
the new rate multiplier to every entry. -/
def set_rate_multiplier {α χ : Type} (s : SamplerControlSet α χ)
    (rate_multiplier : ℚ) : SamplerControlSet α χ :=
  ⟨s.samplers.map fun p => (p.1, { p.2 with rate_multiplier := rate_multiplier })⟩

/-- `SamplerControlSet::set_input` from resources.rs: forcibly set the
interpolation point of every `Running` entry; other states untouched. -/
def set_input {α χ : Type} (s : SamplerControlSet α χ) (input : ℚ) :
    SamplerControlSet α χ :=
  let dur := secs_to_duration input
  ⟨s.samplers.map fun p =>
    (p.1, match p.2.state with
      | ControlState.Running _ => { p.2 with state := ControlState.Running dur }
      | _ => p.2)⟩

/-- `SamplerControlSet::check_termination` from resources.rs: true iff
every entry is `Done` or `Requested`. -/
def check_termination {α χ : Type} (s : SamplerControlSet α χ) : Bool :=
  s.samplers.all fun p =>
    decide (p.2.state = ControlState.Done ∨ p.2.state = ControlState.Requested)

end SamplerControlSet

/-- Modelled from the spec: `minterpolate::get_input_index` (external
crate, not part of the sources). Per the spec, it returns the greatest
index `i` with `input[i] <= t`, or `none` when no keyframe time is at or
before `t` (in particular when `t` precedes the first keyframe). -/
def get_input_index (t : ℚ) (input : List ℚ) : Option Nat :=
  ((List.range input.length).filter fun i => decide (input.getD i 0 ≤ t)).max?

/-- `set_step_state` from resources.rs: for a `Running(dur)` control,
move to the adjacent keyframe in the given direction (with clamping at
the track boundaries); any other state is left unchanged. The `if` on
the `Forward` branch models the Rust match guard `index >= len - 1`, and
the `if` on the `Backward` branch models the `(Some(0), Backward)` arm. -/
def set_step_state {α χ : Type} (control : SamplerControl α χ)
    (sampler : Sampler α) (direction : StepDirection) : SamplerControl α χ :=
  match control.state with
  | ControlState.Running dur =>
    let dur_s := duration_to_secs dur
    let new_index :=
      match get_input_index dur_s sampler.input, direction with
      | some index, StepDirection.Forward =>
        if sampler.input.length - 1 ≤ index then sampler.input.length - 1
        else index + 1
      | some index, StepDirection.Backward =>
        if index = 0 then 0 else index - 1
      | none, _ => 0
    { control with
      state := ControlState.Running (secs_to_duration (sampler.input.getD new_index 0)) }
  | _ => control

/-- One entry of `SamplerControlSet::step` from resources.rs: `Done`
entries are skipped by the `filter`; otherwise the sampler asset is
fetched and unwrapped — `none` models the panic of `.unwrap()` when the
asset is not yet loaded. -/
def stepEntry {α χ : Type} (samplers : Nat → Option (Sampler α))
    (direction : StepDirection) (c : SamplerControl α χ) :
    Option (SamplerControl α χ) :=
  if c.state = ControlState.Done then some c
  else
    match samplers c.sampler with
    | none => none
    | some s => some (set_step_state c s direction)

/-- `SamplerControlSet::step` from resources.rs, with the `.unwrap()`
panic surfaced as `none` for the whole call (a Rust panic aborts the
whole iteration). -/
def SamplerControlSet.step {α χ : Type} (s : SamplerControlSet α χ)
    (samplers : Nat → Option (Sampler α)) (direction : StepDirection) :
    Option (SamplerControlSet α χ) :=
  (s.samplers.mapM fun p =>
    (stepEntry samplers direction p.2).map fun c => (p.1, c)).map
    SamplerControlSet.mk

/-! ### Helper lemmas -/

/-- A mapped list is pointwise related to the original list. -/
theorem forall₂_map_self {γ δ : Type} {R : γ → δ → Prop} (f : γ → δ)
    (l : List γ) (h : ∀ x ∈ l, R x (f x)) : List.Forall₂ R l (l.map f) :=
  List.forall₂_map_right_iff.mpr (List.forall₂_same.mpr h)

/-! ### Claims about the per-channel broadcast operations -/

/-- C3: `check_termination()` returns true iff every entry's state is
`Done` or `Requested`; in particular it is true for the empty control
set and false whenever some entry is `Running`, `Paused` or `Abort`. -/
theorem check_termination_iff {α χ : Type} (s : SamplerControlSet α χ) :
    (s.check_termination = true ↔
      ∀ p ∈ s.samplers,
        p.2.state = ControlState.Done ∨ p.2.state = ControlState.Requested) ∧
    (s.samplers = [] → s.check_termination = true) ∧
    (∀ p ∈ s.samplers,
      (p.2.state.is_running = true ∨ p.2.state.is_paused = true ∨
        p.2.state = ControlState.Abort) →
      s.check_termination = false) := by
  have hiff : s.check_termination = true ↔
      ∀ p ∈ s.samplers,
        p.2.state = ControlState.Done ∨ p.2.state = ControlState.Requested := by
    simp [SamplerControlSet.check_termination, List.all_eq_true]
  refine ⟨hiff, ?_, ?_⟩
  · intro h
    rw [hiff]
    intro p hp
    rw [h] at hp
    cases hp
  · intro p hp hbad
    have hnt : ¬s.check_termination = true := by
      intro ht
      have hds := hiff.mp ht p hp
      rcases hds with hdone | hreq <;>
        rcases hbad with hr | hpp | hab <;>
          simp_all [ControlState.is_running, ControlState.is_paused]
    exact Bool.eq_false_iff.mpr hnt

/-- C7: `abort()` sets every entry whose state is not `Done` to `Abort`
and leaves every `Done` entry unchanged. -/
theorem abort_spec {α χ : Type} (s : SamplerControlSet α χ) :
    List.Forall₂ (fun before after : χ × SamplerControl α χ =>
        (before.2.state ≠ ControlState.Done →
          after = (before.1, { before.2 with state := ControlState.Abort })) ∧
        (before.2.state = ControlState.Done → after = before))
      s.samplers s.abort.samplers := by
  unfold SamplerControlSet.abort
  refine forall₂_map_self _ _ ?_
  intro p _
  constructor
  · intro hne
    simp [hne]
  · intro hdone
    simp [hdone]

/-- C8: `unpause()` turns every `Paused(d)` entry into `Running(d)` and
leaves entries in every other state unchanged. -/
theorem unpause_spec {α χ : Type} (s : SamplerControlSet α χ) :
    List.Forall₂ (fun before after : χ × SamplerControl α χ =>
        (∀ d, before.2.state = ControlState.Paused d →
          after = (before.1, { before.2 with state := ControlState.Running d })) ∧
        ((∀ d, before.2.state ≠ ControlState.Paused d) → after = before))
      s.samplers s.unpause.samplers := by
  unfold SamplerControlSet.unpause
  refine forall₂_map_self _ _ ?_
  intro p _
  constructor
  · intro d hd
    simp [hd]
  · intro hnp
    have hkeep : (match p.2.state with
        | ControlState.Paused dur => ControlState.Running dur
        | st => st) = p.2.state := by
      cases hst : p.2.state with
      | Paused d => exact absurd hst (hnp d)
      | _ => rfl
    simp [hkeep]

/-- C9: `set_rate_multiplier(r)` sets the `rate_multiplier` field of
every entry to `r` and leaves the channel key and every other field
(`channel`, `sampler`, `state`, `end`, `after`) unchanged. -/
theorem set_rate_multiplier_spec {α χ : Type} (s : SamplerControlSet α χ) (r : ℚ) :
    List.Forall₂ (fun before after : χ × SamplerControl α χ =>
        after.1 = before.1 ∧
        after.2.rate_multiplier = r ∧
        after.2.channel = before.2.channel ∧
        after.2.sampler = before.2.sampler ∧
        after.2.state = before.2.state ∧
        after.2.end_ = before.2.end_ ∧
        after.2.after = before.2.after)
      s.samplers (s.set_rate_multiplier r).samplers := by
  unfold SamplerControlSet.set_rate_multiplier
  refine forall₂_map_self _ _ ?_
  intro p _
  simp

/-- C10: `pause()` sets every entry that is not `Running` — including
entries already `Paused(d)`, `Done` or `Abort` — to `Paused(0)`. -/
theorem pause_non_running_spec {α χ : Type} (s : SamplerControlSet α χ) :
    List.Forall₂ (fun before after : χ × SamplerControl α χ =>
        ((∀ d, before.2.state ≠ ControlState.Running d) →
          after = (before.1, { before.2 with state := ControlState.Paused 0 })))
      s.samplers s.pause.samplers := by
  unfold SamplerControlSet.pause
  refine forall₂_map_self _ _ ?_
  intro p _
  intro hnr
  cases hst : p.2.state with
  | Running d => exact absurd hst (hnr d)
  | _ => simp [hst]

/-- C6: `set_input(x)` sets every `Running` entry's state to
`Running(secs_to_duration x)` and leaves entries in every other state
(`Paused`, `Requested`, `Abort`, `Done`) completely unchanged. -/
theorem set_input_spec {α χ : Type} (s : SamplerControlSet α χ) (x : ℚ) :
    List.Forall₂ (fun before after : χ × SamplerControl α χ =>
        (∀ d, before.2.state = ControlState.Running d →
          after = (before.1,
            { before.2 with state := ControlState.Running (secs_to_duration x) })) ∧
        ((∀ d, before.2.state ≠ ControlState.Running d) → after = before))
      s.samplers (s.set_input x).samplers := by
  unfold SamplerControlSet.set_input
  refine forall₂_map_self _ _ ?_
  intro p _
  constructor
  · intro d hd
    simp [hd]
  · intro hnr
    cases hst : p.2.state with
    | Running d => exact absurd hst (hnr d)
    | _ => simp [hst]

/-- C2: `pause()` immediately followed by `unpause()` restores exactly
the pre-pause `Running(d)` state of every entry that was `Running(d)`,
and an entry that was `Requested` ends up `Running(0)`. -/
theorem pause_unpause_roundtrip {α χ : Type} (s : SamplerControlSet α χ) :
    List.Forall₂ (fun before after : χ × SamplerControl α χ =>
        (∀ d, before.2.state = ControlState.Running d →
          after.2.state = ControlState.Running d) ∧
        (before.2.state = ControlState.Requested →
          after.2.state = ControlState.Running 0))
      s.samplers s.pause.unpause.samplers := by
  unfold SamplerControlSet.pause SamplerControlSet.unpause
  simp only [List.map_map]
  refine forall₂_map_self _ _ ?_
  intro p _
  constructor
  · intro d hd
    simp [Function.comp, hd]
  · intro hreq
    simp [Function.comp, hreq]

/-! ### Characterization of the keyframe index query -/

/-- `get_input_index` returns `some i` exactly when `i` is the greatest
in-range index whose keyframe time is at or before `t`. -/
theorem get_input_index_eq_some_iff (t : ℚ) (input : List ℚ) (i : Nat) :
    get_input_index t input = some i ↔
      i < input.length ∧ input.getD i 0 ≤ t ∧
        ∀ j, j < input.length → input.getD j 0 ≤ t → j ≤ i := by
  unfold get_input_index
  rw [List.max?_eq_some_iff (fun a => le_refl a) (fun a b => max_choice a b)
    (fun a b c => max_le_iff)]
  simp only [List.mem_filter, List.mem_range, decide_eq_true_iff]
  constructor
  · rintro ⟨⟨hi, hle⟩, hmax⟩
    exact ⟨hi, hle, fun j hj hjle => hmax j ⟨hj, hjle⟩⟩
  · rintro ⟨hi, hle, hmax⟩
    exact ⟨⟨hi, hle⟩, fun j hj => hmax j hj.1 hj.2⟩

/-- `get_input_index` returns `none` exactly when no in-range keyframe
time is at or before `t`. -/
theorem get_input_index_eq_none_iff (t : ℚ) (input : List ℚ) :
    get_input_index t input = none ↔
      ∀ j, j < input.length → ¬input.getD j 0 ≤ t := by
  unfold get_input_index
  rw [List.max?_eq_none_iff, List.filter_eq_nil_iff]
  simp only [List.mem_range, decide_eq_true_iff]

/-- When the last keyframe time is at or before `t`, the index query
returns the last index. -/
theorem get_input_index_last (t : ℚ) (input : List ℚ) (hne : input ≠ [])
    (h : input.getD (input.length - 1) 0 ≤ t) :
    get_input_index t input = some (input.length - 1) := by
  rw [get_input_index_eq_some_iff]
  have hpos : 0 < input.length := List.length_pos.mpr hne
  exact ⟨by omega, h, fun j hj _ => by omega⟩

/-- In a sorted keyframe list, `getD` is monotone on in-range indices. -/
theorem sorted_getD_mono (l : List ℚ) (hsort : List.Sorted (· ≤ ·) l)
    (i j : Nat) (hij : i ≤ j) (hj : j < l.length) :
    l.getD i 0 ≤ l.getD j 0 := by
  have hi : i < l.length := Nat.lt_of_le_of_lt hij hj
  rw [List.getD_eq_getElem l 0 hi, List.getD_eq_getElem l 0 hj]
  rcases Nat.eq_or_lt_of_le hij with heq | hlt
  · subst heq; exact le_refl _
  · have := List.pairwise_iff_get.mp hsort ⟨i, hi⟩ ⟨j, hj⟩ hlt
    simpa [List.get_eq_getElem] using this

/-! ### Claims about stepping -/

/-- C4: for a `Running(d)` control, `set_step_state` locates the greatest
keyframe index `i` with `input[i] <= d` (`none` when no keyframe is at or
before `d`), then: `Forward` clamps to the last index when at or past it
and otherwise advances one index; `Backward` clamps to index 0 when at
index 0 or when no index was found and otherwise retreats one index; and
the new state is `Running` of the keyframe time at the new index. -/
theorem set_step_state_spec {α χ : Type} (c : SamplerControl α χ)
    (s : Sampler α) (dir : StepDirection) (d : ℚ)
    (h : c.state = ControlState.Running d) :
    (∀ i, get_input_index (duration_to_secs d) s.input = some i ↔
        i < s.input.length ∧ s.input.getD i 0 ≤ duration_to_secs d ∧
          ∀ j, j < s.input.length → s.input.getD j 0 ≤ duration_to_secs d → j ≤ i) ∧
    (∀ i, get_input_index (duration_to_secs d) s.input = some i →
      (dir = StepDirection.Forward → s.input.length - 1 ≤ i →
        (set_step_state c s dir).state =
          ControlState.Running (secs_to_duration (s.input.getD (s.input.length - 1) 0))) ∧
      (dir = StepDirection.Forward → i < s.input.length - 1 →
        (set_step_state c s dir).state =
          ControlState.Running (secs_to_duration (s.input.getD (i + 1) 0))) ∧
      (dir = StepDirection.Backward → i = 0 →
        (set_step_state c s dir).state =
          ControlState.Running (secs_to_duration (s.input.getD 0 0))) ∧
      (dir = StepDirection.Backward → 0 < i →
        (set_step_state c s dir).state =
          ControlState.Running (secs_to_duration (s.input.getD (i - 1) 0)))) ∧
    (get_input_index (duration_to_secs d) s.input = none →
      dir = StepDirection.Backward →
      (set_step_state c s dir).state =
        ControlState.Running (secs_to_duration (s.input.getD 0 0))) := by
  refine ⟨fun i => get_input_index_eq_some_iff _ _ i, ?_, ?_⟩
  · intro i hgi
    refine ⟨?_, ?_, ?_, ?_⟩
    · rintro rfl hle
      simp [set_step_state, h, hgi]
      rw [if_pos (show s.input.length ≤ i + 1 by omega)]
    · rintro rfl hlt
      simp [set_step_state, h, hgi]
      rw [if_neg (show ¬s.input.length ≤ i + 1 by omega)]
    · rintro rfl rfl
      simp [set_step_state, h, hgi]
    · rintro rfl hpos
      have hne0 : ¬i = 0 := by omega
      simp [set_step_state, h, hgi, if_neg hne0]
  · intro hgi hdir
    subst hdir
    simp [set_step_state, h, hgi]

/-- C4: witness — a `Running(1)` control over keyframes `[0, 1, 2]`
stepped `Forward` lands on the keyframe at index 2. -/
theorem set_step_state_spec_witness :
    (set_step_state
        (⟨0, 0, ControlState.Running 1, EndControl.Normal, 0, 1⟩ :
          SamplerControl ℚ Nat)
        (⟨[0, 1, 2], [0, 0, 0], InterpolationFunction.tag⟩ : Sampler ℚ)
        StepDirection.Forward).state =
      ControlState.Running (secs_to_duration ((([0, 1, 2] : List ℚ)).getD (1 + 1) 0)) :=
  ((set_step_state_spec
      (⟨0, 0, ControlState.Running 1, EndControl.Normal, 0, 1⟩ :
        SamplerControl ℚ Nat)
      (⟨[0, 1, 2], [0, 0, 0], InterpolationFunction.tag⟩ : Sampler ℚ)
      StepDirection.Forward 1 rfl).2.1 1 (by decide)).2.1 rfl (by decide)

/-- C5: stepping is idempotent at the track boundaries: a `Running`
entry whose elapsed time is at or after the last keyframe time stays at
the last keyframe under `Forward`, and one whose elapsed time is at or
before the first keyframe lands on `input[0]` under `Backward`. -/
theorem step_clamps_at_boundaries {α χ : Type} (c : SamplerControl α χ)
    (s : Sampler α) (d : ℚ) (h : c.state = ControlState.Running d)
    (hne : s.input ≠ []) (hsort : List.Sorted (· ≤ ·) s.input) :
    (s.input.getD (s.input.length - 1) 0 ≤ duration_to_secs d →
      (set_step_state c s StepDirection.Forward).state =
        ControlState.Running (secs_to_duration (s.input.getD (s.input.length - 1) 0))) ∧
    (duration_to_secs d ≤ s.input.getD 0 0 →
      (set_step_state c s StepDirection.Backward).state =
        ControlState.Running (secs_to_duration (s.input.getD 0 0))) := by
  constructor
  · intro hle
    have hgi := get_input_index_last (duration_to_secs d) s.input hne hle
    simp [set_step_state, h, hgi]
  · intro hle
    cases hgi : get_input_index (duration_to_secs d) s.input with
    | none => simp [set_step_state, h, hgi]
    | some i =>
      obtain ⟨hi, hit, -⟩ := (get_input_index_eq_some_iff _ _ i).mp hgi
      by_cases h0 : i = 0
      · subst h0
        simp [set_step_state, h, hgi]
      · have h1 : s.input.getD (i - 1) 0 = s.input.getD 0 0 := by
          have hlow : s.input.getD 0 0 ≤ s.input.getD (i - 1) 0 :=
            sorted_getD_mono s.input hsort 0 (i - 1) (Nat.zero_le _) (by omega)
          have hmid : s.input.getD (i - 1) 0 ≤ s.input.getD i 0 :=
            sorted_getD_mono s.input hsort (i - 1) i (by omega) hi
          exact le_antisymm (le_trans hmid (le_trans hit hle)) hlow
        simp [set_step_state, h, hgi, if_neg h0]
        have h2 : s.input[i - 1]?.getD 0 = s.input[0]?.getD 0 := by
          simpa [List.getD] using h1
        rw [h2]

/-- C5: witness — over sorted keyframes `[0, 1, 2]`, a control running
at elapsed 5 steps `Forward` to the last keyframe time 2. -/
theorem step_clamps_at_boundaries_witness :
    List.Sorted (· ≤ ·) ([0, 1, 2] : List ℚ) ∧
    (set_step_state
        (⟨0, 0, ControlState.Running 5, EndControl.Normal, 0, 1⟩ :
          SamplerControl ℚ Nat)
        (⟨[0, 1, 2], [0, 0, 0], InterpolationFunction.tag⟩ : Sampler ℚ)
        StepDirection.Forward).state =
      ControlState.Running
        (secs_to_duration ((([0, 1, 2] : List ℚ)).getD
          (([0, 1, 2] : List ℚ).length - 1) 0)) :=
  ⟨by decide,
   (step_clamps_at_boundaries
      (⟨0, 0, ControlState.Running 5, EndControl.Normal, 0, 1⟩ :
        SamplerControl ℚ Nat)
      (⟨[0, 1, 2], [0, 0, 0], InterpolationFunction.tag⟩ : Sampler ℚ)
      5 rfl (by decide) (by decide)).1 (by decide)⟩

/-! ### Claims about `step` and unresolved sampler assets -/

/-- Processing one entry of `step` succeeds exactly when the entry is
`Done` (skipped) or its sampler asset is resolved in the store. -/
theorem stepEntry_isSome_iff {α χ : Type} (store : Nat → Option (Sampler α))
    (dir : StepDirection) (c : SamplerControl α χ) :
    (stepEntry store dir c).isSome = true ↔
      (c.state ≠ ControlState.Done → (store c.sampler).isSome = true) := by
  unfold stepEntry
  by_cases hd : c.state = ControlState.Done
  · simp [hd]
  · rw [if_neg hd]
    cases hs : store c.sampler with
    | none => simp [hd]
    | some s => simp [hd]

/-- The entry traversal of `step` succeeds exactly when every non-`Done`
entry's sampler asset is resolved in the store. -/
theorem step_entries_isSome_iff {α χ : Type} (store : Nat → Option (Sampler α))
    (dir : StepDirection) :
    ∀ l : List (χ × SamplerControl α χ),
      (l.mapM fun p => (stepEntry store dir p.2).map fun c => (p.1, c)).isSome
          = true ↔
        ∀ p ∈ l, p.2.state ≠ ControlState.Done →
          (store p.2.sampler).isSome = true
  | [] => by
    simp only [List.mapM_nil]
    simp
  | p :: l => by
    have hcons : ((p :: l).mapM fun q => (stepEntry store dir q.2).map fun c => (q.1, c))
        = ((stepEntry store dir p.2).map fun c => (p.1, c)).bind fun b =>
            ((l.mapM fun q => (stepEntry store dir q.2).map fun c => (q.1, c)).bind
              fun bs => some (b :: bs)) := by
      rw [List.mapM_cons]
      rfl
    rw [hcons]
    have hp := stepEntry_isSome_iff store dir p.2
    have hl := step_entries_isSome_iff store dir l
    simp only [List.forall_mem_cons]
    cases hsp : stepEntry store dir p.2 with
    | none =>
      rw [hsp] at hp
      simp only [Option.isSome_none, Bool.false_eq_true, false_iff, Classical.not_imp] at hp
      simp only [Option.map_none', Option.none_bind, Option.isSome_none,
        Bool.false_eq_true, false_iff]
      intro hall
      exact absurd (hall.1 hp.1) hp.2
    | some c =>
      rw [hsp] at hp
      simp only [Option.isSome_some, true_iff] at hp
      simp only [Option.map_some', Option.some_bind]
      cases hrest : l.mapM fun q => (stepEntry store dir q.2).map fun c => (q.1, c) with
      | none =>
        rw [hrest] at hl
        simp only [Option.isSome_none, Bool.false_eq_true, false_iff,
          not_forall, Classical.not_imp] at hl
        simp only [Option.none_bind, Option.isSome_none, Bool.false_eq_true,
          false_iff]
        intro hall
        obtain ⟨q, hql, hnd, hns⟩ := hl
        exact absurd (hall.2 q hql hnd) hns
      | some cs =>
        rw [hrest] at hl
        simp only [Option.isSome_some, true_iff] at hl
        simp only [Option.some_bind, Option.isSome_some]
        exact iff_of_true trivial ⟨hp, hl⟩

/-- C1 (amended): `step` skips only `Done` entries; it completes without
an unrecoverable fault exactly when every non-`Done` entry's sampler
handle is resolved in the asset store — an unresolved sampler on a
non-`Done` entry hits the `unwrap` panic (modelled as `none`) instead of
being skipped for the tick. -/
theorem step_isSome_iff {α χ : Type} (s : SamplerControlSet α χ)
    (store : Nat → Option (Sampler α)) (dir : StepDirection) :
    (s.step store dir).isSome = true ↔
      ∀ p ∈ s.samplers, p.2.state ≠ ControlState.Done →
        (store p.2.sampler).isSome = true := by
  unfold SamplerControlSet.step
  rw [Option.isSome_map']
  exact step_entries_isSome_iff store dir s.samplers

/-- C1 counterexample: a control set with a single `Running` entry whose
sampler asset is not yet loaded in the store — `step` hits the panic of
`.unwrap()` on the unresolved handle (modelled as `none`) instead of
skipping that entry for the tick. -/
theorem step_unresolved_sampler_faults :
    SamplerControlSet.step
      (⟨[(0, ⟨0, 0, ControlState.Running 0, EndControl.Normal, 0, 1⟩)]⟩ :
        SamplerControlSet ℚ Nat)
      (fun _ => none) StepDirection.Forward = none := by
  rfl
